import Mathlib

/-
Verification of the tag-aware streaming token classifier implemented in
`Agent.process_stream` (src/api/agent.py).  Text is modelled as `List Char`,
fragments as elements of `List (List Char)`, and the classifier loop as an
explicit state-passing recursion producing a list of emitted events together
with the final state.
-/

namespace Laika

/-- Events yielded by `process_stream`: `("thinking", bool)` status changes and
`("token", text)` content events. -/
inductive Event where
  | thinking (active : Bool)
  | token (text : List Char)
deriving DecidableEq

/-- The loop-local mutable state of `Agent.process_stream`: `page_buffer`,
`token_buffer`, `in_thinking_section`, `in_answer_section`, `token_queue`. -/
structure ClassifierState where
  pageBuffer : List Char
  tokenBuffer : List Char
  inThinking : Bool
  inAnswer : Bool
  tokenQueue : List (List Char)
deriving DecidableEq

/-- `startsWith needle hay`: `needle` is a prefix of `hay` (helper for the
Python substring test). -/
def startsWith : List Char → List Char → Bool
  | [], _ => true
  | _ :: _, [] => false
  | a :: as, b :: bs => a == b && startsWith as bs

/-- `containsSub needle hay`: Python's `needle in hay` substring containment. -/
def containsSub (needle : List Char) : List Char → Bool
  | [] => needle.isEmpty
  | c :: t => startsWith needle (c :: t) || containsSub needle t

/-- Python's `hay.replace(needle, "", 1)`: remove the first (leftmost)
occurrence of `needle`.  For the nonempty needle at an occurrence
`c :: t = needle ++ rest`, the result drops `needle.length` characters, i.e.
keeps `t.drop (needle.length - 1)`. -/
def removeFirst (needle : List Char) : List Char → List Char
  | [] => []
  | c :: t =>
    if !needle.isEmpty && startsWith needle (c :: t) then
      List.drop (needle.length - 1) t
    else
      c :: removeFirst needle t

/-- Worker for `removeAll`, structurally recursive on a fuel argument so that
it reduces inside the kernel.  Each step consumes one unit of fuel and at
least one character of `hay`, so fuel `hay.length` never runs out. -/
def removeAllFuel (needle : List Char) : Nat → List Char → List Char
  | _, [] => []
  | 0, hay => hay
  | Nat.succ fuel, c :: t =>
    if !needle.isEmpty && startsWith needle (c :: t) then
      removeAllFuel needle fuel (List.drop (needle.length - 1) t)
    else
      c :: removeAllFuel needle fuel t

/-- Python's `hay.replace(needle, "")`: remove every (leftmost-first,
non-overlapping) occurrence of `needle`. -/
def removeAll (needle hay : List Char) : List Char :=
  removeAllFuel needle hay.length hay

/-- ASCII whitespace characters removed by Python's `str.strip()` (the inputs
handled here are ASCII). -/
def pyIsSpace (c : Char) : Bool :=
  c == ' ' || c == '\t' || c == '\n' || c == '\r' ||
    c == Char.ofNat 11 || c == Char.ofNat 12

/-- Python's `s.strip()`: drop leading and trailing whitespace. -/
def stripChars (l : List Char) : List Char :=
  ((l.dropWhile pyIsSpace).reverse.dropWhile pyIsSpace).reverse

/-- The literal `"<think>"`. -/
def thinkOpen : List Char := ['<', 't', 'h', 'i', 'n', 'k', '>']

/-- The literal `"</think>"`. -/
def thinkClose : List Char := ['<', '/', 't', 'h', 'i', 'n', 'k', '>']

/-- The literal `"<answer>"`. -/
def answerOpen : List Char := ['<', 'a', 'n', 's', 'w', 'e', 'r', '>']

/-- The literal `"</answer>"`. -/
def answerClose : List Char := ['<', '/', 'a', 'n', 's', 'w', 'e', 'r', '>']

/-- One iteration of the `thinking_model` branch of the `for chunk in stream`
loop in `Agent.process_stream`, for a single nonempty `token`:
append the token to `token_buffer`, test the four delimiters in source order
(each guarded by the current mode flag), and on a match remove the first
occurrence, flip the flag, clear the queue and `continue` (emitting a
`thinking` event for the think tags); otherwise discard the token when inside
the thinking section, else append it to `page_buffer`, push it on the queue
and pop/emit the oldest queued token once the queue length reaches 3.
The queue `s.tokenQueue ++ [token]` is nonempty, so `headI`/`tail` coincide
with Python's `token_queue.pop(0)`. -/
def thinkingStep (s : ClassifierState) (token : List Char) :
    ClassifierState × List Event :=
  if containsSub thinkOpen (s.tokenBuffer ++ token) && !s.inThinking then
    ({ s with
        inThinking := true
        tokenBuffer := removeFirst thinkOpen (s.tokenBuffer ++ token)
        tokenQueue := [] }, [Event.thinking true])
  else if containsSub thinkClose (s.tokenBuffer ++ token) && s.inThinking then
    ({ s with
        inThinking := false
        tokenBuffer := removeFirst thinkClose (s.tokenBuffer ++ token)
        tokenQueue := [] }, [Event.thinking false])
  else if containsSub answerOpen (s.tokenBuffer ++ token) && !s.inAnswer then
    ({ s with
        inAnswer := true
        tokenBuffer := removeFirst answerOpen (s.tokenBuffer ++ token)
        tokenQueue := [] }, [])
  else if containsSub answerClose (s.tokenBuffer ++ token) && s.inAnswer then
    ({ s with
        inAnswer := false
        tokenBuffer := removeFirst answerClose (s.tokenBuffer ++ token)
        tokenQueue := [] }, [])
  else if s.inThinking then
    ({ s with tokenBuffer := s.tokenBuffer ++ token }, [])
  else
    if 3 ≤ (s.tokenQueue ++ [token]).length then
      ({ s with
          tokenBuffer := s.tokenBuffer ++ token
          pageBuffer := s.pageBuffer ++ token
          tokenQueue := (s.tokenQueue ++ [token]).tail },
       [Event.token (s.tokenQueue ++ [token]).headI])
    else
      ({ s with
          tokenBuffer := s.tokenBuffer ++ token
          pageBuffer := s.pageBuffer ++ token
          tokenQueue := s.tokenQueue ++ [token] }, [])

/-- One loop iteration of `Agent.process_stream` on a nonempty token:
the `thinking_model` branch is `thinkingStep`; otherwise the token is appended
to `page_buffer` and yielded immediately. -/
def processToken (thinkingModel : Bool) (s : ClassifierState)
    (token : List Char) : ClassifierState × List Event :=
  if thinkingModel then
    thinkingStep s token
  else
    ({ s with pageBuffer := s.pageBuffer ++ token }, [Event.token token])

/-- The `for chunk in stream` loop of `Agent.process_stream` over a list of
fragments: empty fragments are skipped (`if not token: continue`), the events
of each iteration are concatenated in order. -/
def runFragments (thinkingModel : Bool) :
    ClassifierState → List (List Char) → ClassifierState × List Event
  | s, [] => (s, [])
  | s, token :: rest =>
    if token.isEmpty then
      runFragments thinkingModel s rest
    else
      ((runFragments thinkingModel (processToken thinkingModel s token).1 rest).1,
       (processToken thinkingModel s token).2 ++
         (runFragments thinkingModel (processToken thinkingModel s token).1 rest).2)

/-- The state at the top of `Agent.process_stream`: empty buffers, both mode
flags off, empty queue. -/
def initialState : ClassifierState :=
  { pageBuffer := []
    tokenBuffer := []
    inThinking := false
    inAnswer := false
    tokenQueue := [] }

/-- The final tag-stripping of `Agent.process_stream`:
`page_buffer.replace("<think>", "").replace("</think>", "")` then
`.replace("<answer>", "").replace("</answer>", "")`. -/
def stripTags (l : List Char) : List Char :=
  removeAll answerClose (removeAll answerOpen
    (removeAll thinkClose (removeAll thinkOpen l)))

/-- Whole-stream behaviour of `Agent.process_stream` on a fragment list:
the emitted events (loop events followed by the flush of the remaining queue)
and the terminal return value (`page_buffer` with the four tags stripped when
`thinking_model`, then `.strip()`). -/
def processStream (thinkingModel : Bool) (frags : List (List Char)) :
    List Event × List Char :=
  ((runFragments thinkingModel initialState frags).2 ++
     ((runFragments thinkingModel initialState frags).1.tokenQueue.map Event.token),
   stripChars
     (if thinkingModel then
        stripTags (runFragments thinkingModel initialState frags).1.pageBuffer
      else
        (runFragments thinkingModel initialState frags).1.pageBuffer))

/-- The texts of the `token` events in an event list, in order. -/
def tokenTexts (evs : List Event) : List (List Char) :=
  evs.filterMap fun e =>
    match e with
    | Event.token t => some t
    | Event.thinking _ => none

/-- The payloads of the `thinking` events in an event list, in order. -/
def thinkingVals (evs : List Event) : List Bool :=
  evs.filterMap fun e =>
    match e with
    | Event.thinking b => some b
    | Event.token _ => none

/-- `alternatingFrom b l`: the booleans of `l` are `b, !b, b, ...`. -/
def alternatingFrom : Bool → List Bool → Bool
  | _, [] => true
  | b, x :: t => (x == b) && alternatingFrom (!b) t

/-- Whether a fragment triggers one of the four tag-transition branches of
`thinkingStep` in state `s`. -/
def transitionFires (s : ClassifierState) (token : List Char) : Bool :=
  (containsSub thinkOpen (s.tokenBuffer ++ token) && !s.inThinking) ||
  (containsSub thinkClose (s.tokenBuffer ++ token) && s.inThinking) ||
  (containsSub answerOpen (s.tokenBuffer ++ token) && !s.inAnswer) ||
  (containsSub answerClose (s.tokenBuffer ++ token) && s.inAnswer)

/-- A run is lossless when every tag transition happens while the delay queue
is empty, so `token_queue.clear()` never discards queued content. -/
def lossless : ClassifierState → List (List Char) → Bool
  | _, [] => true
  | s, token :: rest =>
    if token.isEmpty then
      lossless s rest
    else
      (!(transitionFires s token) || s.tokenQueue.isEmpty) &&
        lossless (processToken true s token).1 rest

/-- Input of the no-leakage counterexample: `"<think>"` split across four
fragments, then `"</think>"`; the concatenation is `"<think></think>"`. -/
def exSplitLeak : List (List Char) :=
  [['<'], ['t'], ['h'], "ink>".toList, thinkClose]

/-- The fragment list of the spec's worked example (claim C2). -/
def exSpecExample : List (List Char) :=
  ["<thi".toList, "nk>secret".toList, "</think>hello ".toList,
   "wor".toList, "ld".toList]

/-- Balanced-tag input on which emitted token text and terminal value differ:
`"a"` is queued, then discarded when `"<think>"` clears the queue, and the
terminal `.strip()` trims `" hi "`. -/
def exLossy : List (List Char) :=
  [['a'], thinkOpen, thinkClose, " hi ".toList]

/-- `"<answer>"` followed by `"<think>"`: both mode flags end up active. -/
def exBothModes : List (List Char) := [answerOpen, thinkOpen]

/-- The delimiter `"<think>"` fed one character per fragment. -/
def exSplitChars : List (List Char) :=
  [['<'], ['t'], ['h'], ['i'], ['n'], ['k'], ['>']]

/-- A single tag-free nine-character fragment. -/
def exNine : List Char := "aaaaaaaaa".toList

/-- The discard-on-transition example of claim C8. -/
def exDiscard : List (List Char) :=
  [thinkOpen, ['x'], ['y'], thinkClose, ['z']]

/-- A stray `"</think>"` arriving while not in thinking mode, followed by
three ordinary fragments (claim C10). -/
def exStray : List (List Char) := [thinkClose, ['a'], ['b'], ['c']]

/-- Four plain single-character fragments. -/
def exPlain : List (List Char) := [['a'], ['b'], ['c'], ['d']]

/-! ### Basic lemmas about the text helpers -/

theorem startsWith_append {n xs : List Char} (ys : List Char)
    (h : startsWith n xs = true) : startsWith n (xs ++ ys) = true := by
  induction n generalizing xs with
  | nil => simp [startsWith]
  | cons a as ih =>
    cases xs with
    | nil => simp [startsWith] at h
    | cons b bs =>
      simp only [List.cons_append, startsWith, Bool.and_eq_true] at h ⊢
      exact ⟨h.1, ih h.2⟩

theorem containsSub_nil_left (ys : List Char) : containsSub [] ys = true := by
  cases ys <;> simp [containsSub, startsWith]

theorem containsSub_append {n xs : List Char} (ys : List Char)
    (h : containsSub n xs = true) : containsSub n (xs ++ ys) = true := by
  induction xs with
  | nil =>
    simp only [containsSub, List.isEmpty_iff] at h
    subst h
    simpa using containsSub_nil_left ys
  | cons c t ih =>
    simp only [containsSub, Bool.or_eq_true, List.cons_append] at h ⊢
    cases h with
    | inl h => exact Or.inl (startsWith_append ys h)
    | inr h => exact Or.inr (ih h)

theorem containsSub_false_of_append {n xs : List Char} (ys : List Char)
    (h : containsSub n (xs ++ ys) = false) : containsSub n xs = false := by
  cases hc : containsSub n xs with
  | false => rfl
  | true =>
    rw [containsSub_append ys hc] at h
    exact h

theorem tokenTexts_append (a b : List Event) :
    tokenTexts (a ++ b) = tokenTexts a ++ tokenTexts b := by
  simp [tokenTexts]

theorem thinkingVals_append (a b : List Event) :
    thinkingVals (a ++ b) = thinkingVals a ++ thinkingVals b := by
  simp [thinkingVals]

theorem tokenTexts_map_token (q : List (List Char)) :
    tokenTexts (q.map Event.token) = q := by
  induction q with
  | nil => rfl
  | cons a t ih => simpa [tokenTexts, List.filterMap_cons] using ih

theorem thinkingVals_map_token (q : List (List Char)) :
    thinkingVals (q.map Event.token) = [] := by
  induction q with
  | nil => rfl
  | cons a t ih => simp [thinkingVals, List.filterMap_cons, ih]

theorem headI_append_mem (l : List (List Char)) (x : List Char) :
    (l ++ [x]).headI ∈ l ++ [x] := by
  cases l <;> simp [List.headI]

/-! ### Unfolding equations for the loop -/

theorem runFragments_cons_empty {tm : Bool} {s : ClassifierState}
    {token : List Char} {rest : List (List Char)} (he : token.isEmpty = true) :
    runFragments tm s (token :: rest) = runFragments tm s rest := by
  simp [runFragments, he]

theorem runFragments_cons {tm : Bool} {s : ClassifierState} {token : List Char}
    {rest : List (List Char)} (he : ¬ token.isEmpty = true) :
    runFragments tm s (token :: rest) =
      ((runFragments tm (processToken tm s token).1 rest).1,
       (processToken tm s token).2 ++
         (runFragments tm (processToken tm s token).1 rest).2) := by
  simp [runFragments, he]

theorem lossless_cons_empty {s : ClassifierState} {token : List Char}
    {rest : List (List Char)} (he : token.isEmpty = true) :
    lossless s (token :: rest) = lossless s rest := by
  simp [lossless, he]

theorem lossless_cons {s : ClassifierState} {token : List Char}
    {rest : List (List Char)} (he : ¬ token.isEmpty = true) :
    lossless s (token :: rest) =
      ((!(transitionFires s token) || s.tokenQueue.isEmpty) &&
        lossless (processToken true s token).1 rest) := by
  simp [lossless, he]

/-! ### Per-step lemmas about `thinkingStep` -/

theorem mem_tokenQueue_thinkingStep {s : ClassifierState} {token x : List Char}
    (hx : x ∈ (thinkingStep s token).1.tokenQueue) :
    x ∈ s.tokenQueue ∨ x = token := by
  simp only [thinkingStep] at hx
  split_ifs at hx
  · simp at hx
  · simp at hx
  · simp at hx
  · simp at hx
  · simp at hx
    exact Or.inl hx
  · simp only at hx
    have hmem := List.mem_of_mem_tail hx
    rcases List.mem_append.mp hmem with h | h
    · exact Or.inl h
    · simp at h
      exact Or.inr h
  · simp at hx
    rcases hx with h | h
    · exact Or.inl h
    · exact Or.inr h

theorem mem_tokenTexts_thinkingStep {s : ClassifierState} {token t : List Char}
    (ht : t ∈ tokenTexts (thinkingStep s token).2) :
    t ∈ s.tokenQueue ∨ t = token := by
  simp only [thinkingStep] at ht
  split_ifs at ht
  · simp [tokenTexts] at ht
  · simp [tokenTexts] at ht
  · simp [tokenTexts] at ht
  · simp [tokenTexts] at ht
  · simp [tokenTexts] at ht
  · simp [tokenTexts] at ht
    have hmem := headI_append_mem s.tokenQueue token
    rw [← ht] at hmem
    rcases List.mem_append.mp hmem with h | h
    · exact Or.inl h
    · simp at h
      exact Or.inr h
  · simp [tokenTexts] at ht

theorem thinkingStep_flags (s : ClassifierState) (token : List Char) :
    (thinkingStep s token).1.inThinking = s.inThinking ∨
      (thinkingStep s token).1.inAnswer = s.inAnswer := by
  simp only [thinkingStep]
  split_ifs <;> simp

theorem thinkingStep_thinkingVals (s : ClassifierState) (token : List Char) :
    (thinkingVals (thinkingStep s token).2 = [] ∧
       (thinkingStep s token).1.inThinking = s.inThinking) ∨
    (s.inThinking = false ∧ thinkingVals (thinkingStep s token).2 = [true] ∧
       (thinkingStep s token).1.inThinking = true) ∨
    (s.inThinking = true ∧ thinkingVals (thinkingStep s token).2 = [false] ∧
       (thinkingStep s token).1.inThinking = false) := by
  simp only [thinkingStep]
  split_ifs with h1 h2 h3 h4 h5 h6 <;> simp_all [thinkingVals]

theorem thinkingStep_invariant (s : ClassifierState) (token : List Char)
    (base : List Char)
    (hq : transitionFires s token = true → s.tokenQueue = [])
    (hpb : s.pageBuffer = base ++ s.tokenQueue.flatten) :
    (thinkingStep s token).1.pageBuffer =
      (base ++ (tokenTexts (thinkingStep s token).2).flatten) ++
        (thinkingStep s token).1.tokenQueue.flatten := by
  simp only [thinkingStep]
  split_ifs with h1 h2 h3 h4 h5 h6
  · have hqq := hq (by simp [transitionFires, h1])
    simp [tokenTexts, hpb, hqq]
  · have hqq := hq (by simp [transitionFires, h2])
    simp [tokenTexts, hpb, hqq]
  · have hqq := hq (by simp [transitionFires, h3])
    simp [tokenTexts, hpb, hqq]
  · have hqq := hq (by simp [transitionFires, h4])
    simp [tokenTexts, hpb, hqq]
  · simp [tokenTexts, hpb]
  · rcases hsq : s.tokenQueue with _ | ⟨a, as⟩
    · rw [hsq] at h6
      simp at h6
    · simp [tokenTexts, hpb, hsq, List.flatten_append, List.append_assoc,
        List.headI]
  · simp [tokenTexts, hpb, List.flatten_append, List.append_assoc]

/-! ### Run-level lemmas -/

theorem processToken_true (s : ClassifierState) (token : List Char) :
    processToken true s token = thinkingStep s token := rfl

theorem processToken_false (s : ClassifierState) (token : List Char) :
    processToken false s token =
      ({ s with pageBuffer := s.pageBuffer ++ token }, [Event.token token]) := rfl

theorem run_queue_prov (Q : List Char → Prop) (frags : List (List Char)) :
    ∀ s : ClassifierState, (∀ q ∈ s.tokenQueue, Q q) → (∀ f ∈ frags, Q f) →
      (∀ t ∈ tokenTexts (runFragments true s frags).2, Q t) ∧
        (∀ x ∈ (runFragments true s frags).1.tokenQueue, Q x) := by
  induction frags with
  | nil =>
    intro s hs _
    refine ⟨?_, ?_⟩
    · intro t ht
      simp [runFragments, tokenTexts] at ht
    · intro x hx
      exact hs x (by simpa [runFragments] using hx)
  | cons token rest ih =>
    intro s hs hf
    by_cases he : token.isEmpty = true
    · rw [runFragments_cons_empty he]
      exact ih s hs fun f hf' => hf f (List.mem_cons_of_mem _ hf')
    · rw [runFragments_cons he]
      have hs' : ∀ q ∈ (processToken true s token).1.tokenQueue, Q q := by
        intro q hq
        rcases mem_tokenQueue_thinkingStep
            (by simpa [processToken_true] using hq) with h | h
        · exact hs q h
        · exact h ▸ hf token (by simp)
      have hrest := ih (processToken true s token).1 hs'
        fun f hf' => hf f (List.mem_cons_of_mem _ hf')
      refine ⟨?_, ?_⟩
      · intro t ht
        simp only [tokenTexts_append, List.mem_append] at ht
        rcases ht with h | h
        · rcases mem_tokenTexts_thinkingStep
              (by simpa [processToken_true] using h) with h' | h'
          · exact hs t h'
          · exact h' ▸ hf token (by simp)
        · exact hrest.1 t h
      · exact hrest.2

theorem run_invariant (frags : List (List Char)) :
    ∀ (s : ClassifierState) (base : List Char),
      lossless s frags = true →
      s.pageBuffer = base ++ s.tokenQueue.flatten →
      (runFragments true s frags).1.pageBuffer =
        (base ++ (tokenTexts (runFragments true s frags).2).flatten) ++
          (runFragments true s frags).1.tokenQueue.flatten := by
  induction frags with
  | nil =>
    intro s base _ hpb
    simpa [runFragments, tokenTexts] using hpb
  | cons token rest ih =>
    intro s base hl hpb
    by_cases he : token.isEmpty = true
    · rw [runFragments_cons_empty he]
      rw [lossless_cons_empty he] at hl
      exact ih s base hl hpb
    · rw [lossless_cons he] at hl
      simp only [Bool.and_eq_true, Bool.or_eq_true, Bool.not_eq_true'] at hl
      have hq : transitionFires s token = true → s.tokenQueue = [] := by
        intro htf
        rcases hl.1 with h | h
        · rw [htf] at h
          cases h
        · simpa using h
      have hstep := thinkingStep_invariant s token base hq hpb
      have hrec := ih (processToken true s token).1
        (base ++ (tokenTexts (processToken true s token).2).flatten) hl.2
        (by simpa [processToken_true] using hstep)
      rw [runFragments_cons he]
      simp only [tokenTexts_append, List.flatten_append]
      rw [hrec]
      simp [List.append_assoc]

theorem run_alternating (frags : List (List Char)) :
    ∀ s : ClassifierState,
      alternatingFrom (!s.inThinking)
        (thinkingVals (runFragments true s frags).2) = true := by
  induction frags with
  | nil =>
    intro s
    simp [runFragments, thinkingVals, alternatingFrom]
  | cons token rest ih =>
    intro s
    by_cases he : token.isEmpty = true
    · rw [runFragments_cons_empty he]
      exact ih s
    · simp only [runFragments_cons he, processToken_true, thinkingVals_append]
      rcases thinkingStep_thinkingVals s token with ⟨hv, hf⟩ | ⟨hT, hv, hf⟩ |
        ⟨hT, hv, hf⟩
      · rw [hv, List.nil_append, ← hf]
        exact ih (thinkingStep s token).1
      · rw [hv, hT]
        simp only [List.singleton_append, alternatingFrom, Bool.not_false,
          beq_self_eq_true, Bool.true_and]
        have := ih (thinkingStep s token).1
        rwa [hf] at this
      · rw [hv, hT]
        simp only [List.singleton_append, alternatingFrom, Bool.not_true,
          beq_self_eq_true, Bool.true_and]
        have := ih (thinkingStep s token).1
        rwa [hf] at this

theorem run_passthrough (frags : List (List Char)) :
    ∀ s : ClassifierState, (∀ f ∈ frags, f ≠ []) →
      runFragments false s frags =
        ({ s with pageBuffer := s.pageBuffer ++ frags.flatten },
         frags.map Event.token) := by
  induction frags with
  | nil =>
    intro s _
    simp [runFragments]
  | cons token rest ih =>
    intro s hf
    have hne : token ≠ [] := hf token (by simp)
    have he : ¬ token.isEmpty = true := by
      intro h
      exact hne (by simpa using h)
    rw [runFragments_cons he]
    rw [ih (processToken false s token).1
      fun f hf' => hf f (List.mem_cons_of_mem _ hf')]
    simp [processToken_false, List.append_assoc]

theorem run_tokenBuffer (frags : List (List Char)) :
    ∀ s : ClassifierState, s.inThinking = false → s.inAnswer = false →
      containsSub thinkOpen (s.tokenBuffer ++ frags.flatten) = false →
      containsSub thinkClose (s.tokenBuffer ++ frags.flatten) = false →
      containsSub answerOpen (s.tokenBuffer ++ frags.flatten) = false →
      containsSub answerClose (s.tokenBuffer ++ frags.flatten) = false →
      (runFragments true s frags).1.tokenBuffer =
        s.tokenBuffer ++ frags.flatten := by
  induction frags with
  | nil =>
    intro s _ _ _ _ _ _
    simp [runFragments]
  | cons token rest ih =>
    intro s hT hA h1 h2 h3 h4
    by_cases he : token.isEmpty = true
    · have htok : token = [] := by simpa using he
      subst htok
      rw [runFragments_cons_empty he]
      have := ih s hT hA (by simpa using h1) (by simpa using h2)
        (by simpa using h3) (by simpa using h4)
      simpa using this
    · have h1' : containsSub thinkOpen
          ((s.tokenBuffer ++ token) ++ rest.flatten) = false := by
        simpa [List.append_assoc] using h1
      have h2' : containsSub thinkClose
          ((s.tokenBuffer ++ token) ++ rest.flatten) = false := by
        simpa [List.append_assoc] using h2
      have h3' : containsSub answerOpen
          ((s.tokenBuffer ++ token) ++ rest.flatten) = false := by
        simpa [List.append_assoc] using h3
      have h4' : containsSub answerClose
          ((s.tokenBuffer ++ token) ++ rest.flatten) = false := by
        simpa [List.append_assoc] using h4
      have hp1 := containsSub_false_of_append rest.flatten h1'
      have hp2 := containsSub_false_of_append rest.flatten h2'
      have hp3 := containsSub_false_of_append rest.flatten h3'
      have hp4 := containsSub_false_of_append rest.flatten h4'
      have hstate : (processToken true s token).1.tokenBuffer =
            s.tokenBuffer ++ token ∧
          (processToken true s token).1.inThinking = false ∧
          (processToken true s token).1.inAnswer = false := by
        rw [processToken_true]
        simp only [thinkingStep]
        split_ifs <;> simp_all
      have hrec := ih (processToken true s token).1 hstate.2.1 hstate.2.2
        (by rw [hstate.1]; exact h1') (by rw [hstate.1]; exact h2')
        (by rw [hstate.1]; exact h3') (by rw [hstate.1]; exact h4')
      simp only [runFragments_cons he]
      rw [hrec, hstate.1]
      simp [List.append_assoc]

/-! ### Claims -/

/-- Claim C1, counterexample: the concatenation of `exSplitLeak` is the
well-formed pair "<think></think>", yet the classifier emits the token event
("token", "<"), and "<" is a substring of the delimiter "<think>" — a piece
of a delimiter split across four fragments leaks into an emitted token. -/
theorem c1_counterexample :
    exSplitLeak.flatten = thinkOpen ++ thinkClose ∧
    Event.token ['<'] ∈ (processStream true exSplitLeak).1 ∧
    containsSub ['<'] thinkOpen = true := by decide

/-- Claim C1, amended: with thinking_model=True every emitted ("token", text)
event carries one of the input fragments verbatim — token events never split
or merge fragments — but a delimiter split across four or more fragments can
have a prefix fragment emitted, so no unconditional no-substring-leakage
guarantee holds. -/
theorem c1_theorem (frags : List (List Char)) (t : List Char)
    (ht : t ∈ tokenTexts (processStream true frags).1) : t ∈ frags := by
  have h := run_queue_prov (fun x => x ∈ frags) frags initialState
    (by simp [initialState]) (fun f hf => hf)
  simp only [processStream, tokenTexts_append, List.mem_append,
    tokenTexts_map_token] at ht
  rcases ht with h' | h'
  · exact h.1 t h'
  · exact h.2 t h'

/-- Witness for C1: on input `exPlain` the fragment "a" is emitted as a token
event, and the theorem places it among the input fragments. -/
theorem c1_witness : (['a'] : List Char) ∈ exPlain :=
  c1_theorem exPlain ['a'] (by decide)

/-- Claim C2, counterexample: on the spec's example fragments the terminal
value is not "hello world" and no ("token", "hello ") event is ever
emitted — the fragment containing "</think>" triggers the transition and
contributes none of its text. -/
theorem c2_counterexample :
    (processStream true exSpecExample).2 ≠ "hello world".toList ∧
    Event.token "hello ".toList ∉ (processStream true exSpecExample).1 := by
  decide

/-- Claim C2, amended: on fragments ["<thi", "nk>secret", "</think>hello ",
"wor", "ld"] the classifier emits ("thinking", True), then
("thinking", False) on the fragment containing "</think>" (whose trailing
"hello " is dropped with the rest of that fragment), never emits "secret",
queues only "wor" and "ld" and flushes both in order at exhaustion, and
returns "<thiworld" (the pre-transition fragment "<thi" stays in page_buffer
and survives stripping). -/
theorem c2_theorem :
    processStream true exSpecExample =
      ([Event.thinking true, Event.thinking false, Event.token "wor".toList,
        Event.token "ld".toList], "<thiworld".toList) := by decide

/-- Claim C3, counterexample: on the balanced-tag input `exLossy` the
concatenated token-event text is " hi " while the terminal value is "a hi"
("a" was discarded from the queue by the "<think>" transition but remains in
page_buffer, and the final strip trims whitespace). -/
theorem c3_counterexample :
    (tokenTexts (processStream true exLossy).1).flatten ≠
      (processStream true exLossy).2 := by decide

/-- Claim C3, amended: with thinking_model=True the concatenation of all
emitted ("token", ...) texts equals the terminal return value provided no
tag transition fires while the delay queue is nonempty (so clearing loses
nothing) and the final delimiter stripping and whitespace trimming leave the
page buffer unchanged. -/
theorem c3_theorem (frags : List (List Char))
    (hl : lossless initialState frags = true)
    (hs : stripChars
        (stripTags (runFragments true initialState frags).1.pageBuffer) =
      (runFragments true initialState frags).1.pageBuffer) :
    (tokenTexts (processStream true frags).1).flatten =
      (processStream true frags).2 := by
  have h := run_invariant frags initialState [] hl (by simp [initialState])
  simp only [processStream, tokenTexts_append, tokenTexts_map_token,
    List.flatten_append, eq_self_iff_true, if_true]
  rw [hs, h]
  simp

/-- Witness for C3: on the transition-free, whitespace-free input
[["a"], ["b"]] the emitted token text equals the terminal value "ab". -/
theorem c3_witness :
    (tokenTexts (processStream true [['a'], ['b']]).1).flatten =
      (processStream true [['a'], ['b']]).2 :=
  c3_theorem [['a'], ['b']] (by decide) (by decide)

/-- Claim C4, counterexample: after the fragments ["<answer>", "<think>"]
both `in_answer_section` and `in_thinking_section` are true simultaneously,
so the modes are not mutually exclusive. -/
theorem c4_counterexample :
    (runFragments true initialState exBothModes).1.inThinking = true ∧
    (runFragments true initialState exBothModes).1.inAnswer = true := by
  decide

/-- Claim C4, amended: the classifier starts with both mode flags inactive
and each fragment changes at most one of the two flags (every branch of the
loop body leaves `in_thinking_section` or `in_answer_section` unchanged), but
the flags are independent booleans and can both be active at once. -/
theorem c4_theorem :
    (initialState.inThinking = false ∧ initialState.inAnswer = false) ∧
    ∀ (s : ClassifierState) (token : List Char),
      (processToken true s token).1.inThinking = s.inThinking ∨
        (processToken true s token).1.inAnswer = s.inAnswer := by
  refine ⟨⟨rfl, rfl⟩, ?_⟩
  intro s token
  rw [processToken_true]
  exact thinkingStep_flags s token

/-- Claim C5, counterexample: feeding the delimiter "<think>" one character
per fragment does not produce identical classification results to feeding it
as a single fragment (with no surrounding fragments in both runs): the
emitted events and the terminal value differ. -/
theorem c5_counterexample :
    processStream true [thinkOpen] ≠ processStream true exSplitChars := by
  decide

/-- Claim C5, amended: splitting the delimiter "<think>" one character per
fragment still triggers the same thinking transition (both runs emit exactly
("thinking", True) and end in thinking mode), but classification results are
not identical: the split feed leaks the prefix fragments "<", "t", "h", "i"
as token events and leaves "<think" in the terminal value, while the single
fragment emits no token and returns "". -/
theorem c5_theorem :
    thinkingVals (processStream true [thinkOpen]).1 = [true] ∧
    thinkingVals (processStream true exSplitChars).1 = [true] ∧
    (runFragments true initialState [thinkOpen]).1.inThinking =
      (runFragments true initialState exSplitChars).1.inThinking ∧
    tokenTexts (processStream true [thinkOpen]).1 = [] ∧
    tokenTexts (processStream true exSplitChars).1 =
      [['<'], ['t'], ['h'], ['i']] ∧
    (processStream true [thinkOpen]).2 = [] ∧
    (processStream true exSplitChars).2 = "<think".toList := by decide

/-- Claim C6, counterexample: after the single tag-free nine-character
fragment "aaaaaaaaa" is fully classified, `token_buffer` has length 9,
exceeding the claimed bound of 8 (the buffer is never truncated). -/
theorem c6_counterexample :
    8 < ((runFragments true initialState [exNine]).1.tokenBuffer).length := by
  decide

/-- Claim C6, amended: the tag buffer is not bounded by any delimiter length:
for any fragment sequence whose concatenation contains none of the four
delimiters, the final `token_buffer` equals the entire concatenated input,
so its length grows without bound. -/
theorem c6_theorem (frags : List (List Char))
    (h1 : containsSub thinkOpen frags.flatten = false)
    (h2 : containsSub thinkClose frags.flatten = false)
    (h3 : containsSub answerOpen frags.flatten = false)
    (h4 : containsSub answerClose frags.flatten = false) :
    (runFragments true initialState frags).1.tokenBuffer = frags.flatten := by
  have h := run_tokenBuffer frags initialState rfl rfl
    (by simpa [initialState] using h1) (by simpa [initialState] using h2)
    (by simpa [initialState] using h3) (by simpa [initialState] using h4)
  simpa [initialState] using h

/-- Witness for C6: the nine-character tag-free fragment fills the tag buffer
with all nine characters. -/
theorem c6_witness :
    (runFragments true initialState [exNine]).1.tokenBuffer =
      ([exNine] : List (List Char)).flatten :=
  c6_theorem [exNine] (by decide) (by decide) (by decide) (by decide)

/-- Claim C7: with thinking_model=False every nonempty fragment is forwarded
immediately as one ("token", fragment) event, in input order, and
accumulated into page_buffer with no delay, discarding or tag stripping; the
terminal value is the concatenated input (whitespace-trimmed by the final
`.strip()`). -/
theorem c7_theorem (frags : List (List Char)) (h : ∀ f ∈ frags, f ≠ []) :
    (processStream false frags).1 = frags.map Event.token ∧
    (processStream false frags).2 = stripChars frags.flatten := by
  have hr := run_passthrough frags initialState h
  refine ⟨?_, ?_⟩ <;>
    · simp only [processStream]
      rw [hr]
      simp [initialState]

/-- Witness for C7: fragments ["a", "b", "c"] yield exactly the three token
events "a", "b", "c" in order and the terminal value "abc". -/
theorem c7_witness :
    (processStream false [['a'], ['b'], ['c']]).1 =
      [Event.token ['a'], Event.token ['b'], Event.token ['c']] ∧
    (processStream false [['a'], ['b'], ['c']]).2 = ['a', 'b', 'c'] := by
  have h := c7_theorem [['a'], ['b'], ['c']] (by decide)
  exact ⟨h.1.trans (by decide), h.2.trans (by decide)⟩

/-- Claim C8: on fragments ["<think>", "x", "y", "</think>", "z"] the
fragments "x" and "y" are discarded — the queue is still empty right after
each is processed and no event ever carries them — and the run emits exactly
("thinking", True), ("thinking", False), ("token", "z") with terminal value
"z". -/
theorem c8_theorem :
    processStream true exDiscard =
      ([Event.thinking true, Event.thinking false, Event.token ['z']],
       ['z']) ∧
    (runFragments true initialState (exDiscard.take 2)).1.tokenQueue = [] ∧
    (runFragments true initialState (exDiscard.take 3)).1.tokenQueue = [] := by
  decide

/-- Claim C9: with thinking_model=True the ("thinking", b) events strictly
alternate starting from implicit False: the first thinking event, if any,
carries True and no two consecutive thinking events carry the same value. -/
theorem c9_theorem (frags : List (List Char)) :
    alternatingFrom true (thinkingVals (processStream true frags).1) = true := by
  have h := run_alternating frags initialState
  simp only [processStream, thinkingVals_append, thinkingVals_map_token,
    List.append_nil]
  simpa [initialState] using h

/-- Claim C10: a "</think>" arriving while not in thinking mode is ordinary
content: it is queued and appended to page_buffer, emitted verbatim inside a
("token", ...) event once the queue reaches the bound of 3, yet the final
replace-all stripping removes it from the terminal value — so the emitted
token text and the terminal value differ on delimiter literals. -/
theorem c10_theorem :
    processStream true exStray =
      ([Event.token thinkClose, Event.token ['a'], Event.token ['b'],
        Event.token ['c']], ['a', 'b', 'c']) ∧
    (tokenTexts (processStream true exStray).1).flatten ≠
      (processStream true exStray).2 := by decide

end Laika
